import Mathlib

/-!
Verification of the slicing / profile-extraction layer of the prysm
repository.  The provided notebooks are call sites only; the computational
core (the `Slices` class, `exact_x`/`exact_y`/`exact_xy`/`exact_polar`
point sampling, and the sampled-field constructor) is not included in the
source tree, so each definition below is modelled from the specification
document, faithful to its words.  Floating-point sample values are
modelled as real numbers.
-/

open Classical

noncomputable section

/-- Modelled from the spec: the error kinds of §7 (the engine raising them
is absent from the source). -/
inductive PrysmError
  | ShapeMismatch
  | UnknownProfile
  | InsufficientSamples
  | OutOfBounds
deriving DecidableEq

/-- Modelled from the spec: `SampledField2D`, a rectangular grid of scalar
samples (rows indexed by the y-axis, columns by the x-axis) together with
its two physical coordinate axes (§3). -/
structure SampledField2D where
  data : List (List ℝ)
  xaxis : List ℝ
  yaxis : List ℝ

/-- Modelled from the spec: the validating constructor of §4.1 — fails with
`ShapeMismatch` when the axis lengths disagree with the buffer dimensions,
succeeds when the grid dimensions equal (len y-axis, len x-axis). -/
def SampledField2D.build (data : List (List ℝ)) (xaxis yaxis : List ℝ) :
    Except PrysmError SampledField2D :=
  if data.length = yaxis.length ∧ ∀ row ∈ data, row.length = xaxis.length then
    .ok ⟨data, xaxis, yaxis⟩
  else
    .error .ShapeMismatch

/-- Sample value at row `j`, column `i` (out-of-range reads default to 0;
they are never reached for well-formed queries). -/
def gridVal (f : SampledField2D) (j i : ℕ) : ℝ :=
  (f.data.getD j []).getD i 0

/-- Index of the grid cell `[axis i, axis (i+1)]` containing the coordinate
`c`, saturating at the ends. -/
def cellIndex : List ℝ → ℝ → ℕ
  | [], _ => 0
  | [_], _ => 0
  | _ :: b :: rest, c => if c < b then 0 else cellIndex (b :: rest) c + 1

/-- Modelled from the spec: out-of-range coordinates saturate to the
nearest edge value (§4.3, default saturation mode). -/
def clampTo (axis : List ℝ) (c : ℝ) : ℝ :=
  max (axis.headD c) (min (axis.getLastD c) c)

/-- One axis of bilinear interpolation: cell index together with the
fractional position of the (clamped) coordinate inside that cell. -/
def interp1 (axis : List ℝ) (c : ℝ) : ℕ × ℝ :=
  let cc := clampTo axis c
  let i := cellIndex axis cc
  let a := axis.getD i 0
  let b := axis.getD (i + 1) 0
  (i, if b - a = 0 then 0 else (cc - a) / (b - a))

/-- Modelled from the spec: bilinear 2-D interpolation over the field's
regular grid (§4.3), with edge saturation. -/
def interp2 (f : SampledField2D) (x y : ℝ) : ℝ :=
  let px := interp1 f.xaxis x
  let py := interp1 f.yaxis y
  (1 - py.2) * ((1 - px.2) * gridVal f py.1 px.1 + px.2 * gridVal f py.1 (px.1 + 1)) +
    py.2 * ((1 - px.2) * gridVal f (py.1 + 1) px.1 + px.2 * gridVal f (py.1 + 1) (px.1 + 1))

/-- A point-sampling argument or result: a single value or an ordered
sequence of values (the Python data model passes scalars or arrays). -/
inductive Vals
  | scalar (v : ℝ)
  | vector (vs : List ℝ)

/-- The values held by a `Vals`, as a list. -/
def Vals.asList : Vals → List ℝ
  | .scalar v => [v]
  | .vector vs => vs

/-- The value held by a scalar `Vals` (first entry for a vector). -/
def Vals.asScalar : Vals → ℝ
  | .scalar v => v
  | .vector vs => vs.getD 0 0

/-- Modelled from the spec: the broadcast rule of §4.3 — if exactly one of
the two arguments is a sequence and the other a scalar, the scalar is
duplicated to the sequence's length; two sequences pair up elementwise and
fail with `ShapeMismatch` on differing lengths. -/
def broadcastWith (g : ℝ → ℝ → ℝ) : Vals → Vals → Except PrysmError Vals
  | .scalar a, .scalar b => .ok (.scalar (g a b))
  | .scalar a, .vector bs => .ok (.vector (bs.map (fun b => g a b)))
  | .vector as, .scalar b => .ok (.vector (as.map (fun a => g a b)))
  | .vector as, .vector bs =>
    if as.length = bs.length then
      .ok (.vector ((as.zip bs).map (fun p => g p.1 p.2)))
    else
      .error .ShapeMismatch

/-- Modelled from the spec: `exact_x` — interpolate at the given x
coordinate(s) with the perpendicular coordinate implicitly 0 (§4.3). -/
def exact_x (f : SampledField2D) : Vals → Vals
  | .scalar a => .scalar (interp2 f a 0)
  | .vector as => .vector (as.map (fun a => interp2 f a 0))

/-- Modelled from the spec: `exact_y`, the y-axis analogue of `exact_x`. -/
def exact_y (f : SampledField2D) : Vals → Vals
  | .scalar b => .scalar (interp2 f 0 b)
  | .vector bs => .vector (bs.map (fun b => interp2 f 0 b))

/-- Modelled from the spec: `exact_xy(x, y := none)` — 2-D interpolation;
an omitted `y` defaults to 0; scalar/sequence arguments broadcast. -/
def exact_xy (f : SampledField2D) (x : Vals) (y : Option Vals) :
    Except PrysmError Vals :=
  broadcastWith (fun a b => interp2 f a b) x (y.getD (.scalar 0))

/-- Cosine of an angle given in degrees. -/
def cosd (t : ℝ) : ℝ := Real.cos (t * Real.pi / 180)

/-- Sine of an angle given in degrees. -/
def sind (t : ℝ) : ℝ := Real.sin (t * Real.pi / 180)

/-- Modelled from the spec: `exact_polar(radius, angle_degrees := none)` —
identical broadcast rule to `exact_xy`, converting each (r, θ) pair to
Cartesian coordinates x = r cos θ, y = r sin θ before interpolation. -/
def exact_polar (f : SampledField2D) (r : Vals) (t : Option Vals) :
    Except PrysmError Vals :=
  broadcastWith (fun rr tt => interp2 f (rr * cosd tt) (rr * sind tt)) r
    (t.getD (.scalar 0))

/-- Modelled from the spec: the `Slices` profile extractor — one field, a
two-sided flag, and a lazily populated cache slot for the radial-distance
grid (§3, §4.2, design note on memoization). -/
structure Slices where
  field : SampledField2D
  twosided : Bool
  rcache : Option (List (List ℝ))

/-- Modelled from the spec: extractor construction fails with
`InsufficientSamples` when either axis has fewer than 2 samples (§4.2);
the cache starts empty. -/
def SampledField2D.slices (f : SampledField2D) (twosided : Bool) :
    Except PrysmError Slices :=
  if 2 ≤ f.xaxis.length ∧ 2 ≤ f.yaxis.length then
    .ok ⟨f, twosided, none⟩
  else
    .error .InsufficientSamples

/-- Modelled from the spec: the radial-distance grid
r(i, j) = sqrt (x_i ^ 2 + y_j ^ 2), matching the field's shape (§4.2). -/
def radialGrid (f : SampledField2D) : List (List ℝ) :=
  f.yaxis.map (fun y => f.xaxis.map (fun x => Real.sqrt (x ^ 2 + y ^ 2)))

/-- Fill the cache slot with the radial grid if it is still empty;
an already-filled cache is reused untouched. -/
def Slices.ensureR (s : Slices) : Slices :=
  match s.rcache with
  | some _ => s
  | none => ⟨s.field, s.twosided, some (radialGrid s.field)⟩

/-- The radial grid an azimuthal request effectively works with: the cached
grid when present, the freshly computed one otherwise. -/
def Slices.effGrid (s : Slices) : List (List ℝ) :=
  s.rcache.getD (radialGrid s.field)

/-- The maximum finite radius covered by a radial grid. -/
def rmaxOf (rg : List (List ℝ)) : ℝ := rg.flatten.foldl max 0

/-- Modelled from the spec: the fixed requested number of radial bins. -/
def requestedBinCount : ℕ := 100

/-- Modelled from the spec: a bin count exceeding the sample count is
clamped, not an error (§4.2). -/
def azNBins (f : SampledField2D) : ℕ :=
  min requestedBinCount (f.xaxis.length * f.yaxis.length)

/-- Modelled from the spec: membership of a radius in radial bin `k` out of
`n` equal bins spanning [0, rmax] — half-open bins, the last one closed. -/
def inBin (n k : ℕ) (rmx r : ℝ) : Prop :=
  (k : ℝ) * rmx / n ≤ r ∧ (if k + 1 = n then r ≤ rmx else r < ((k : ℝ) + 1) * rmx / n)

/-- The center radius of bin `k`, the midpoint of its two edges. -/
def binCenter (n k : ℕ) (rmx : ℝ) : ℝ := ((k : ℝ) + 1 / 2) * (rmx / n)

/-- The sample values whose radius falls in bin `k`. -/
def azBinVals (rg : List (List ℝ)) (f : SampledField2D) (k : ℕ) : List ℝ :=
  ((rg.flatten.zip f.data.flatten).filter
      (fun p => decide (inBin (azNBins f) k (rmaxOf rg) p.1))).map Prod.snd

/-- Modelled from the spec: bins with zero samples are omitted — the
indices of the bins that contribute to the output. -/
def azKept (rg : List (List ℝ)) (f : SampledField2D) : List ℕ :=
  (List.range (azNBins f)).filter (fun k => !(azBinVals rg f k).isEmpty)

/-- Modelled from the spec: the azimuthal profile — (bin-center radius,
statistic) pairs over the non-empty bins, in increasing bin order (§4.2). -/
def azProfileOf (rg : List (List ℝ)) (f : SampledField2D)
    (stat : List ℝ → ℝ) : List ℝ × List ℝ :=
  ((azKept rg f).map (fun k => binCenter (azNBins f) k (rmaxOf rg)),
   (azKept rg f).map (fun k => stat (azBinVals rg f k)))

/-- An azimuthal request: populate the cache on first use, compute the
profile from the (now cached) radial grid, return profile and state. -/
def Slices.azSlice (s : Slices) (stat : List ℝ → ℝ) :
    (List ℝ × List ℝ) × Slices :=
  (azProfileOf (s.ensureR.rcache.getD []) s.ensureR.field stat, s.ensureR)

/-- Mean of a list of samples. -/
def lmean (l : List ℝ) : ℝ := l.sum / l.length

/-- Median of a list of samples: middle of the sorted list, averaging the
two middle entries for even length. -/
def lmedian (l : List ℝ) : ℝ :=
  let s := l.insertionSort (fun a b => a ≤ b)
  if l.length % 2 = 1 then s.getD (l.length / 2) 0
  else (s.getD (l.length / 2 - 1) 0 + s.getD (l.length / 2) 0) / 2

/-- Minimum of a list of samples. -/
def lmin : List ℝ → ℝ
  | [] => 0
  | a :: t => t.foldl min a

/-- Maximum of a list of samples. -/
def lmax : List ℝ → ℝ
  | [] => 0
  | a :: t => t.foldl max a

/-- Modelled from the spec: peak-to-valley = max − min. -/
def lpv (l : List ℝ) : ℝ := lmax l - lmin l

/-- Population variance of a list of samples. -/
def lvar (l : List ℝ) : ℝ := lmean (l.map (fun v => (v - lmean l) ^ 2))

/-- Standard deviation of a list of samples. -/
def lstd (l : List ℝ) : ℝ := Real.sqrt (lvar l)

/-- First index of the minimum of a list (accumulator form). -/
def argminAux (best : ℕ) (bv : ℝ) (i : ℕ) : List ℝ → ℕ
  | [] => best
  | v :: t => if v < bv then argminAux i v (i + 1) t else argminAux best bv (i + 1) t

/-- First index of the minimum of a list. -/
def argmin : List ℝ → ℕ
  | [] => 0
  | v :: t => argminAux 0 v 1 t

/-- Modelled from the spec: the `x` Cartesian slice as (coordinate, value)
pairs — the row of samples at the y-axis value nearest to 0, paired with
the x-axis coordinates; one-sided extractors keep only x ≥ 0 (§4.2). -/
def xslicePairs (s : Slices) : List (ℝ × ℝ) :=
  let j := argmin (s.field.yaxis.map (fun y => |y|))
  let pairs := s.field.xaxis.zip (s.field.data.getD j [])
  if s.twosided then pairs else pairs.filter (fun p => decide (0 ≤ p.1))

/-- The `x` Cartesian profile: coordinate sequence and value sequence. -/
def xslice (s : Slices) : List ℝ × List ℝ :=
  ((xslicePairs s).map Prod.fst, (xslicePairs s).map Prod.snd)

/-- Modelled from the spec: the `y` Cartesian slice as (coordinate, value)
pairs — the column of samples at the x-axis value nearest to 0, with the
analogous two-sided rule on the y-axis. -/
def yslicePairs (s : Slices) : List (ℝ × ℝ) :=
  let i := argmin (s.field.xaxis.map (fun x => |x|))
  let pairs := s.field.yaxis.zip (s.field.data.map (fun row => row.getD i 0))
  if s.twosided then pairs else pairs.filter (fun p => decide (0 ≤ p.1))

/-- The `y` Cartesian profile: coordinate sequence and value sequence. -/
def yslice (s : Slices) : List ℝ × List ℝ :=
  ((yslicePairs s).map Prod.fst, (yslicePairs s).map Prod.snd)

/-- The recognized profile names (§4.2). -/
def profileNames : List String :=
  ["x", "y", "azavg", "azmedian", "azmin", "azmax", "azpv", "azvar", "azstd"]

/-- Modelled from the spec: named profile dispatch — Cartesian slices are
direct views (state unchanged), azimuthal ones go through the cache, and
an unrecognized name fails with `UnknownProfile` (§4.2). -/
def Slices.getProfile (s : Slices) (name : String) :
    Except PrysmError ((List ℝ × List ℝ) × Slices) :=
  if name = "x" then .ok (xslice s, s)
  else if name = "y" then .ok (yslice s, s)
  else if name = "azavg" then .ok (s.azSlice lmean)
  else if name = "azmedian" then .ok (s.azSlice lmedian)
  else if name = "azmin" then .ok (s.azSlice lmin)
  else if name = "azmax" then .ok (s.azSlice lmax)
  else if name = "azpv" then .ok (s.azSlice lpv)
  else if name = "azvar" then .ok (s.azSlice lvar)
  else if name = "azstd" then .ok (s.azSlice lstd)
  else .error .UnknownProfile

/-- A fresh extractor over a field: empty cache. -/
def freshSlices (f : SampledField2D) (t : Bool) : Slices := ⟨f, t, none⟩

/-- The cache invariant every reachable extractor state satisfies: the
cache is either empty or holds exactly the field's radial grid. -/
def CacheConsistent (s : Slices) : Prop :=
  s.rcache = none ∨ s.rcache = some (radialGrid s.field)

/-- Every entry of the list is non-negative. -/
def allNonneg : List ℝ → Prop
  | [] => True
  | a :: t => 0 ≤ a ∧ allNonneg t

/-- A concrete 2 × 2 demonstration field used by the witnesses. -/
def demoField : SampledField2D := ⟨[[1, 2], [3, 4]], [0, 1], [0, 1]⟩

/-- A fresh extractor over the demonstration field. -/
def demoSlices : Slices := ⟨demoField, true, none⟩

/-! ## Helper lemmas -/

theorem zipFstSnd {α β : Type} (l : List (α × β)) :
    (l.map Prod.fst).zip (l.map Prod.snd) = l := by
  induction l with
  | nil => rfl
  | cons a t ih => simp [ih]

theorem zipWith_two_maps {α β γ : Type} (f : β → β → γ) (g h : α → β)
    (l : List α) :
    List.zipWith f (l.map g) (l.map h) = l.map (fun x => f (g x) (h x)) := by
  induction l with
  | nil => rfl
  | cons a t ih => simp [ih]

theorem foldl_max_init_le (l : List ℝ) (a : ℝ) : a ≤ l.foldl max a := by
  induction l generalizing a with
  | nil => exact le_refl a
  | cons x t ih => exact le_trans (le_max_left a x) (ih (max a x))

theorem rmaxOf_nonneg (rg : List (List ℝ)) : 0 ≤ rmaxOf rg :=
  foldl_max_init_le rg.flatten 0

theorem binCenter_nonneg (n k : ℕ) (rmx : ℝ) (h : 0 ≤ rmx) :
    0 ≤ binCenter n k rmx := by
  unfold binCenter
  have hk : (0 : ℝ) ≤ (k : ℝ) + 1 / 2 := by positivity
  have hd : (0 : ℝ) ≤ rmx / n := by positivity
  exact mul_nonneg hk hd

theorem binCenter_mono (n : ℕ) (rmx : ℝ) (h : 0 ≤ rmx) {k j : ℕ}
    (hkj : k ≤ j) : binCenter n k rmx ≤ binCenter n j rmx := by
  unfold binCenter
  have hd : (0 : ℝ) ≤ rmx / n := by positivity
  have hc : ((k : ℝ) + 1 / 2) ≤ ((j : ℝ) + 1 / 2) := by
    have : (k : ℝ) ≤ (j : ℝ) := by exact_mod_cast hkj
    linarith
  exact mul_le_mul_of_nonneg_right hc hd

theorem allNonneg_of_mem (l : List ℝ) (h : ∀ a ∈ l, 0 ≤ a) : allNonneg l := by
  induction l with
  | nil => trivial
  | cons a t ih =>
    exact ⟨h a (List.mem_cons_self a t), ih (fun b hb => h b (List.mem_cons_of_mem a hb))⟩

theorem mapFst_zip_sublist {α β : Type} (l₁ : List α) (l₂ : List β) :
    List.Sublist ((l₁.zip l₂).map Prod.fst) l₁ := by
  induction l₁ generalizing l₂ with
  | nil => simp
  | cons a t ih =>
    cases l₂ with
    | nil => simp
    | cons b t₂ =>
      simpa [List.zip_cons_cons] using List.Sublist.cons₂ a (ih t₂)

theorem ensureR_field (s : Slices) : s.ensureR.field = s.field := by
  rcases s with ⟨f, t, c⟩
  cases c <;> rfl

theorem ensureR_twosided (s : Slices) : s.ensureR.twosided = s.twosided := by
  rcases s with ⟨f, t, c⟩
  cases c <;> rfl

theorem ensureR_rcache (s : Slices) : s.ensureR.rcache = some s.effGrid := by
  rcases s with ⟨f, t, c⟩
  cases c <;> rfl

theorem ensureR_idem (s : Slices) : s.ensureR.ensureR = s.ensureR := by
  rcases s with ⟨f, t, c⟩
  cases c <;> rfl

theorem effGrid_ensureR (s : Slices) : s.ensureR.effGrid = s.effGrid := by
  unfold Slices.effGrid
  rw [ensureR_rcache]
  rfl

theorem azSlice_eq (s : Slices) (stat : List ℝ → ℝ) :
    s.azSlice stat = (azProfileOf s.effGrid s.field stat, s.ensureR) := by
  unfold Slices.azSlice
  rw [ensureR_rcache, ensureR_field]
  rfl

theorem azSlice_state_azSlice (s : Slices) (st st2 : List ℝ → ℝ) :
    (s.azSlice st).2.azSlice st2 = (azProfileOf s.effGrid s.field st2, s.ensureR) := by
  rw [azSlice_eq, azSlice_eq]
  rw [effGrid_ensureR, ensureR_field, ensureR_idem]

theorem xslicePairs_congr (s s' : Slices) (h1 : s.field = s'.field)
    (h2 : s.twosided = s'.twosided) : xslicePairs s = xslicePairs s' := by
  unfold xslicePairs
  rw [h1, h2]

theorem yslicePairs_congr (s s' : Slices) (h1 : s.field = s'.field)
    (h2 : s.twosided = s'.twosided) : yslicePairs s = yslicePairs s' := by
  unfold yslicePairs
  rw [h1, h2]

theorem effGrid_of_consistent (s : Slices) (h : CacheConsistent s) :
    s.effGrid = radialGrid s.field := by
  unfold Slices.effGrid
  rcases h with h | h <;> rw [h] <;> rfl

theorem getProfile_x (s : Slices) : s.getProfile "x" = .ok (xslice s, s) := rfl

theorem getProfile_y (s : Slices) : s.getProfile "y" = .ok (yslice s, s) := rfl

theorem getProfile_azavg (s : Slices) :
    s.getProfile "azavg" = .ok (s.azSlice lmean) := rfl

theorem getProfile_azmedian (s : Slices) :
    s.getProfile "azmedian" = .ok (s.azSlice lmedian) := rfl

theorem getProfile_azmin (s : Slices) :
    s.getProfile "azmin" = .ok (s.azSlice lmin) := rfl

theorem getProfile_azmax (s : Slices) :
    s.getProfile "azmax" = .ok (s.azSlice lmax) := rfl

theorem getProfile_azpv (s : Slices) :
    s.getProfile "azpv" = .ok (s.azSlice lpv) := rfl

theorem getProfile_azvar (s : Slices) :
    s.getProfile "azvar" = .ok (s.azSlice lvar) := rfl

theorem getProfile_azstd (s : Slices) :
    s.getProfile "azstd" = .ok (s.azSlice lstd) := rfl

theorem getProfile_not_found (s : Slices) (name : String)
    (h : name ∉ profileNames) : s.getProfile name = .error .UnknownProfile := by
  simp only [profileNames, List.mem_cons, List.not_mem_nil, or_false] at h
  push_neg at h
  obtain ⟨h1, h2, h3, h4, h5, h6, h7, h8, h9⟩ := h
  unfold Slices.getProfile
  rw [if_neg h1, if_neg h2, if_neg h3, if_neg h4, if_neg h5, if_neg h6,
    if_neg h7, if_neg h8, if_neg h9]

theorem getProfile_fst_cache (s : Slices) (h : CacheConsistent s) (name : String) :
    (s.getProfile name).map Prod.fst
      = ((freshSlices s.field s.twosided).getProfile name).map Prod.fst := by
  have hf : (freshSlices s.field s.twosided).field = s.field := rfl
  have ht : (freshSlices s.field s.twosided).twosided = s.twosided := rfl
  have hx : xslice (freshSlices s.field s.twosided) = xslice s := by
    unfold xslice
    rw [xslicePairs_congr (freshSlices s.field s.twosided) s hf ht]
  have hy : yslice (freshSlices s.field s.twosided) = yslice s := by
    unfold yslice
    rw [yslicePairs_congr (freshSlices s.field s.twosided) s hf ht]
  have hg : (freshSlices s.field s.twosided).effGrid = s.effGrid := by
    rw [effGrid_of_consistent s h]
    rfl
  have haz : ∀ st : List ℝ → ℝ,
      (s.azSlice st).1 = ((freshSlices s.field s.twosided).azSlice st).1 := by
    intro st
    rw [azSlice_eq, azSlice_eq, hg, hf]
  by_cases hmem : name ∈ profileNames
  · simp only [profileNames, List.mem_cons, List.not_mem_nil, or_false] at hmem
    rcases hmem with rfl | rfl | rfl | rfl | rfl | rfl | rfl | rfl | rfl
    · rw [getProfile_x, getProfile_x]; simp [Except.map, hx]
    · rw [getProfile_y, getProfile_y]; simp [Except.map, hy]
    · rw [getProfile_azavg, getProfile_azavg]; simp [Except.map, haz lmean]
    · rw [getProfile_azmedian, getProfile_azmedian]; simp [Except.map, haz lmedian]
    · rw [getProfile_azmin, getProfile_azmin]; simp [Except.map, haz lmin]
    · rw [getProfile_azmax, getProfile_azmax]; simp [Except.map, haz lmax]
    · rw [getProfile_azpv, getProfile_azpv]; simp [Except.map, haz lpv]
    · rw [getProfile_azvar, getProfile_azvar]; simp [Except.map, haz lvar]
    · rw [getProfile_azstd, getProfile_azstd]; simp [Except.map, haz lstd]
  · rw [getProfile_not_found s name hmem,
      getProfile_not_found (freshSlices s.field s.twosided) name hmem]

theorem azSlice_repeat (s : Slices) (st : List ℝ → ℝ) :
    (s.azSlice st).2.azSlice st = s.azSlice st := by
  rw [azSlice_state_azSlice, azSlice_eq]

theorem replicate_zip_map (g : ℝ → ℝ → ℝ) (a : ℝ) (bs : List ℝ) :
    ((List.replicate bs.length a).zip bs).map (fun p => g p.1 p.2)
      = bs.map (fun b => g a b) := by
  induction bs with
  | nil => rfl
  | cons b t ih => simp only [List.length_cons, List.replicate_succ,
      List.zip_cons_cons, List.map_cons, ih]

theorem zip_replicate_map (g : ℝ → ℝ → ℝ) (a : ℝ) (as : List ℝ) :
    ((as.zip (List.replicate as.length a)).map (fun p => g p.1 p.2))
      = as.map (fun x => g x a) := by
  induction as with
  | nil => rfl
  | cons x t ih => simp only [List.length_cons, List.replicate_succ,
      List.zip_cons_cons, List.map_cons, ih]

theorem getD_map_lt (g : ℝ → ℝ) (l : List ℝ) :
    ∀ i, i < l.length → (l.map g).getD i 0 = g (l.getD i 0) := by
  induction l with
  | nil => intro i hi; exact absurd hi (by simp)
  | cons a t ih =>
    intro i hi
    cases i with
    | zero => rfl
    | succ n =>
      simp only [List.map_cons, List.getD_cons_succ]
      exact ih n (by simpa using hi)

theorem pairsProfile_sorted (axis vals : List ℝ) (tw : Bool)
    (hax : axis.Pairwise (· ≤ ·)) :
    ((if tw then axis.zip vals
      else (axis.zip vals).filter (fun p => decide (0 ≤ p.1))).map
        Prod.fst).Pairwise (· ≤ ·) := by
  have hsub : List.Sublist
      (if tw then axis.zip vals
        else (axis.zip vals).filter (fun p => decide (0 ≤ p.1)))
      (axis.zip vals) := by
    cases tw
    · simp only [Bool.false_eq_true, if_false]
      exact List.filter_sublist (axis.zip vals)
    · simp
  exact hax.sublist ((hsub.map Prod.fst).trans (mapFst_zip_sublist axis vals))

theorem xslice_len (s : Slices) : (xslice s).1.length = (xslice s).2.length := by
  simp [xslice]

theorem yslice_len (s : Slices) : (yslice s).1.length = (yslice s).2.length := by
  simp [yslice]

theorem xslice_sorted (s : Slices) (hx : s.field.xaxis.Pairwise (· ≤ ·)) :
    (xslice s).1.Pairwise (· ≤ ·) := by
  unfold xslice xslicePairs
  dsimp only
  exact pairsProfile_sorted _ _ _ hx

theorem yslice_sorted (s : Slices) (hy : s.field.yaxis.Pairwise (· ≤ ·)) :
    (yslice s).1.Pairwise (· ≤ ·) := by
  unfold yslice yslicePairs
  dsimp only
  exact pairsProfile_sorted _ _ _ hy

theorem azProfile_len (rg : List (List ℝ)) (f : SampledField2D)
    (stat : List ℝ → ℝ) :
    (azProfileOf rg f stat).1.length = (azProfileOf rg f stat).2.length := by
  simp [azProfileOf]

theorem azProfile_coords_sorted (rg : List (List ℝ)) (f : SampledField2D)
    (stat : List ℝ → ℝ) :
    (azProfileOf rg f stat).1.Pairwise (· ≤ ·) := by
  unfold azProfileOf azKept
  rw [List.pairwise_map]
  have hp : ((List.range (azNBins f)).filter
      (fun k => !(azBinVals rg f k).isEmpty)).Pairwise (· < ·) :=
    (List.pairwise_lt_range (azNBins f)).sublist (List.filter_sublist _)
  exact hp.imp (fun hab =>
    binCenter_mono (azNBins f) (rmaxOf rg) (rmaxOf_nonneg rg) (le_of_lt hab))

theorem azKept_nonempty (rg : List (List ℝ)) (f : SampledField2D) (k : ℕ)
    (h : k ∈ azKept rg f) : azBinVals rg f k ≠ [] := by
  unfold azKept at h
  rw [List.mem_filter] at h
  intro hnil
  rw [hnil] at h
  simp at h

/-! ## Claim theorems -/

/-- C1: for every extractor and every radial bin produced by azimuthal
extraction, the `azpv` profile value at that bin equals the `azmax` value
minus the `azmin` value at the same bin, exactly: the three azimuthal
profiles share the same bin-center coordinates and the `azpv` value list is
the elementwise difference of the `azmax` and `azmin` value lists. -/
theorem azpv_is_azmax_sub_azmin (s : Slices) :
    s.getProfile "azpv" = .ok (s.azSlice lpv) ∧
    s.getProfile "azmax" = .ok (s.azSlice lmax) ∧
    s.getProfile "azmin" = .ok (s.azSlice lmin) ∧
    (s.azSlice lpv).1.1 = (s.azSlice lmax).1.1 ∧
    (s.azSlice lpv).1.1 = (s.azSlice lmin).1.1 ∧
    (s.azSlice lpv).1.2
      = List.zipWith (fun a b => a - b) (s.azSlice lmax).1.2 (s.azSlice lmin).1.2 := by
  refine ⟨rfl, rfl, rfl, ?_, ?_, ?_⟩
  · rw [azSlice_eq, azSlice_eq]; rfl
  · rw [azSlice_eq, azSlice_eq]; rfl
  · rw [azSlice_eq, azSlice_eq, azSlice_eq]
    show (azProfileOf s.effGrid s.field lpv).2
      = List.zipWith (fun a b => a - b) (azProfileOf s.effGrid s.field lmax).2
          (azProfileOf s.effGrid s.field lmin).2
    unfold azProfileOf
    rw [zipWith_two_maps]
    rfl

/-- C3: `exact_polar` equals the field's 2-D interpolation at Cartesian
coordinates (r cos θ, r sin θ), with the same broadcast rule as
`exact_xy`; in particular `exact_polar (r, 0) = exact_xy (r, 0)` and
`exact_polar (r, 90) = exact_xy (0, r)`. -/
theorem exact_polar_matches_cartesian (f : SampledField2D) (r t : ℝ)
    (rv : Vals) (tv : Option Vals) :
    exact_polar f rv tv
      = broadcastWith (fun rr tt => interp2 f (rr * cosd tt) (rr * sind tt))
          rv (tv.getD (.scalar 0)) ∧
    exact_polar f (.scalar r) (some (.scalar t))
      = .ok (.scalar (interp2 f (r * cosd t) (r * sind t))) ∧
    exact_polar f (.scalar r) (some (.scalar 0))
      = exact_xy f (.scalar r) (some (.scalar 0)) ∧
    exact_polar f (.scalar r) (some (.scalar 90))
      = exact_xy f (.scalar 0) (some (.scalar r)) := by
  have hc0 : cosd 0 = 1 := by unfold cosd; rw [zero_mul, zero_div, Real.cos_zero]
  have hs0 : sind 0 = 0 := by unfold sind; rw [zero_mul, zero_div, Real.sin_zero]
  have hc90 : cosd 90 = 0 := by
    unfold cosd
    rw [show (90 : ℝ) * Real.pi / 180 = Real.pi / 2 by ring, Real.cos_pi_div_two]
  have hs90 : sind 90 = 1 := by
    unfold sind
    rw [show (90 : ℝ) * Real.pi / 180 = Real.pi / 2 by ring, Real.sin_pi_div_two]
  refine ⟨rfl, rfl, ?_, ?_⟩
  · show Except.ok (Vals.scalar (interp2 f (r * cosd 0) (r * sind 0)))
      = Except.ok (Vals.scalar (interp2 f r 0))
    rw [hc0, hs0, mul_one, mul_zero]
  · show Except.ok (Vals.scalar (interp2 f (r * cosd 90) (r * sind 90)))
      = Except.ok (Vals.scalar (interp2 f 0 r))
    rw [hc90, hs90, mul_zero, mul_one]

/-- C4: requesting a profile whose name is not among the recognized names
fails with `UnknownProfile`, and every recognized name succeeds (so it
never raises `UnknownProfile`). -/
theorem profile_name_dispatch (s : Slices) (name : String) :
    (name ∉ profileNames → s.getProfile name = .error .UnknownProfile) ∧
    (name ∈ profileNames → ∃ r, s.getProfile name = .ok r) := by
  constructor
  · exact getProfile_not_found s name
  · intro hmem
    simp only [profileNames, List.mem_cons, List.not_mem_nil, or_false] at hmem
    rcases hmem with rfl | rfl | rfl | rfl | rfl | rfl | rfl | rfl | rfl
    exacts [⟨_, rfl⟩, ⟨_, rfl⟩, ⟨_, rfl⟩, ⟨_, rfl⟩, ⟨_, rfl⟩, ⟨_, rfl⟩,
      ⟨_, rfl⟩, ⟨_, rfl⟩, ⟨_, rfl⟩]

/-- Witness for C4: the unrecognized name "diagonal" yields
`UnknownProfile` on a concrete extractor, and the recognized name "x"
succeeds there. -/
theorem profile_name_dispatch_witness :
    ("diagonal" ∉ profileNames ∧
      demoSlices.getProfile "diagonal" = .error .UnknownProfile) ∧
    ("x" ∈ profileNames ∧ ∃ r, demoSlices.getProfile "x" = .ok r) := by
  refine ⟨⟨by decide, ?_⟩, ⟨by decide, ?_⟩⟩
  · exact (profile_name_dispatch demoSlices "diagonal").1 (by decide)
  · exact (profile_name_dispatch demoSlices "x").2 (by decide)

/-- C5: constructing a `SampledField2D` fails with `ShapeMismatch` whenever
the axis lengths disagree with the buffer dimensions, and succeeds when the
grid dimensions equal (len y-axis, len x-axis). -/
theorem build_shape_validation (data : List (List ℝ)) (xaxis yaxis : List ℝ) :
    (¬(data.length = yaxis.length ∧ ∀ row ∈ data, row.length = xaxis.length) →
      SampledField2D.build data xaxis yaxis = .error .ShapeMismatch) ∧
    ((data.length = yaxis.length ∧ ∀ row ∈ data, row.length = xaxis.length) →
      SampledField2D.build data xaxis yaxis = .ok ⟨data, xaxis, yaxis⟩) := by
  constructor
  · intro h; unfold SampledField2D.build; rw [if_neg h]
  · intro h; unfold SampledField2D.build; rw [if_pos h]

/-- Witness for C5: a buffer of shape (10, 8) with an x-axis of length 5
raises `ShapeMismatch`; a 2 × 2 buffer with matching axes succeeds. -/
theorem build_shape_validation_witness :
    (¬((List.replicate 10 (List.replicate 8 (0 : ℝ))).length
          = (List.replicate 10 (0 : ℝ)).length ∧
        ∀ row ∈ List.replicate 10 (List.replicate 8 (0 : ℝ)),
          row.length = (List.replicate 5 (0 : ℝ)).length) ∧
      SampledField2D.build (List.replicate 10 (List.replicate 8 (0 : ℝ)))
        (List.replicate 5 0) (List.replicate 10 0) = .error .ShapeMismatch) ∧
    (([[(1 : ℝ), 2], [3, 4]].length = [(0 : ℝ), 1].length ∧
        ∀ row ∈ [[(1 : ℝ), 2], [3, 4]], row.length = [(0 : ℝ), 1].length) ∧
      SampledField2D.build [[(1 : ℝ), 2], [3, 4]] [0, 1] [0, 1]
        = .ok ⟨[[1, 2], [3, 4]], [0, 1], [0, 1]⟩) := by
  have hneg : ¬((List.replicate 10 (List.replicate 8 (0 : ℝ))).length
        = (List.replicate 10 (0 : ℝ)).length ∧
      ∀ row ∈ List.replicate 10 (List.replicate 8 (0 : ℝ)),
        row.length = (List.replicate 5 (0 : ℝ)).length) := by
    intro h
    have := h.2 (List.replicate 8 (0 : ℝ)) (by simp)
    simp at this
  have hpos : [[(1 : ℝ), 2], [3, 4]].length = [(0 : ℝ), 1].length ∧
      ∀ row ∈ [[(1 : ℝ), 2], [3, 4]], row.length = [(0 : ℝ), 1].length := by
    refine ⟨rfl, ?_⟩
    intro row hrow
    simp only [List.mem_cons, List.not_mem_nil, or_false] at hrow
    rcases hrow with rfl | rfl
    · rfl
    · rfl
  refine ⟨⟨hneg, ?_⟩, ⟨hpos, ?_⟩⟩
  · exact (build_shape_validation (List.replicate 10 (List.replicate 8 (0 : ℝ)))
      (List.replicate 5 0) (List.replicate 10 0)).1 hneg
  · exact (build_shape_validation [[(1 : ℝ), 2], [3, 4]] [0, 1] [0, 1]).2 hpos

/-- C6: with two-sided set to false the x profile contains exactly the
entries of the two-sided x profile whose coordinate is non-negative, and
every azimuthal profile is one-sided (all bin-center radii are ≥ 0)
whatever the two-sided flag. -/
theorem onesided_and_az_nonneg (f : SampledField2D)
    (c : Option (List (List ℝ))) (s : Slices) (st : List ℝ → ℝ) :
    xslicePairs ⟨f, false, c⟩
      = (xslicePairs ⟨f, true, c⟩).filter (fun p => decide (0 ≤ p.1)) ∧
    (xslice ⟨f, false, c⟩).1.zip (xslice ⟨f, false, c⟩).2
      = ((xslice ⟨f, true, c⟩).1.zip
          (xslice ⟨f, true, c⟩).2).filter (fun p => decide (0 ≤ p.1)) ∧
    allNonneg (s.azSlice st).1.1 := by
  refine ⟨by unfold xslicePairs; rfl, ?_, ?_⟩
  · unfold xslice
    rw [zipFstSnd, zipFstSnd]
    unfold xslicePairs
    rfl
  · rw [azSlice_eq]
    show allNonneg (azProfileOf s.effGrid s.field st).1
    unfold azProfileOf
    apply allNonneg_of_mem
    intro a ha
    simp only [List.mem_map] at ha
    obtain ⟨k, hk, rfl⟩ := ha
    exact binCenter_nonneg _ _ _ (rmaxOf_nonneg _)

/-- C8: `exact_xy` with `y` omitted interpolates at y = 0, and with exactly
one sequence argument the scalar argument is duplicated to the sequence's
length before interpolation, giving a result of that same length. -/
theorem exact_xy_defaults_broadcast (f : SampledField2D) (a : ℝ)
    (bs as : List ℝ) (x : Vals) :
    exact_xy f x none = exact_xy f x (some (.scalar 0)) ∧
    exact_xy f (.scalar a) none = .ok (.scalar (interp2 f a 0)) ∧
    exact_xy f (.scalar a) (some (.vector bs))
      = .ok (.vector (((List.replicate bs.length a).zip bs).map
          (fun p => interp2 f p.1 p.2))) ∧
    (((List.replicate bs.length a).zip bs).map
        (fun p => interp2 f p.1 p.2)).length = bs.length ∧
    exact_xy f (.vector as) (some (.scalar a))
      = .ok (.vector ((as.zip (List.replicate as.length a)).map
          (fun p => interp2 f p.1 p.2))) ∧
    ((as.zip (List.replicate as.length a)).map
        (fun p => interp2 f p.1 p.2)).length = as.length := by
  refine ⟨rfl, rfl, ?_, ?_, ?_, ?_⟩
  · rw [replicate_zip_map (fun u v => interp2 f u v) a bs]
    rfl
  · rw [replicate_zip_map (fun u v => interp2 f u v) a bs]
    simp
  · rw [zip_replicate_map (fun u v => interp2 f u v) a as]
    rfl
  · rw [zip_replicate_map (fun u v => interp2 f u v) a as]
    simp

/-- C9: `exact_x` applied to a list of N coordinates returns a sequence of
length N whose i-th element equals `exact_x` applied to the i-th
coordinate alone, and likewise for `exact_y`. -/
theorem exact_x_vectorizes (f : SampledField2D) (xs : List ℝ) :
    (exact_x f (.vector xs)).asList.length = xs.length ∧
    (∀ i, i < xs.length →
      (exact_x f (.vector xs)).asList.getD i 0
        = (exact_x f (.scalar (xs.getD i 0))).asScalar) ∧
    (exact_y f (.vector xs)).asList.length = xs.length ∧
    (∀ i, i < xs.length →
      (exact_y f (.vector xs)).asList.getD i 0
        = (exact_y f (.scalar (xs.getD i 0))).asScalar) := by
  refine ⟨by simp [exact_x, Vals.asList], ?_, by simp [exact_y, Vals.asList], ?_⟩
  · intro i hi
    exact getD_map_lt (fun u => interp2 f u 0) xs i hi
  · intro i hi
    exact getD_map_lt (fun u => interp2 f 0 u) xs i hi

/-- Witness for C9: on the demonstration field, the one-entry list [5]
vectorizes with its 0-th element equal to the scalar call. -/
theorem exact_x_vectorizes_witness :
    0 < [(5 : ℝ)].length ∧
    (exact_x demoField (.vector [5])).asList.getD 0 0
      = (exact_x demoField (.scalar ([(5 : ℝ)].getD 0 0))).asScalar ∧
    (exact_y demoField (.vector [5])).asList.getD 0 0
      = (exact_y demoField (.scalar ([(5 : ℝ)].getD 0 0))).asScalar := by
  refine ⟨by simp, ?_, ?_⟩
  · exact (exact_x_vectorizes demoField [5]).2.1 0 (by simp)
  · exact (exact_x_vectorizes demoField [5]).2.2.2 0 (by simp)

/-- C2: repeating a named request on the same extractor instance returns
the identical result and state; the radial cache is filled on the first
azimuthal request, is reused (unchanged) by every later azimuthal request
whatever statistic is asked for, and never changes any result relative to
a fresh extractor. -/
theorem slices_cache_idempotent (s : Slices) (name : String)
    (st st2 : List ℝ → ℝ) :
    (∀ p s1, s.getProfile name = .ok (p, s1) →
      s1.getProfile name = .ok (p, s1)) ∧
    (CacheConsistent s → (s.getProfile name).map Prod.fst
      = ((freshSlices s.field s.twosided).getProfile name).map Prod.fst) ∧
    (s.rcache = none →
      (s.azSlice st).2 = ⟨s.field, s.twosided, some (radialGrid s.field)⟩) ∧
    ((s.azSlice st).2.azSlice st2).2 = (s.azSlice st).2 ∧
    ((s.azSlice st).2.azSlice st2).1 = (s.azSlice st2).1 := by
  refine ⟨?_, fun hc => getProfile_fst_cache s hc name, ?_, ?_, ?_⟩
  · intro p s1 h
    by_cases hmem : name ∈ profileNames
    · simp only [profileNames, List.mem_cons, List.not_mem_nil, or_false] at hmem
      rcases hmem with rfl | rfl | rfl | rfl | rfl | rfl | rfl | rfl | rfl
      · rw [getProfile_x] at h
        injection h with h
        obtain ⟨h1, h2⟩ := Prod.ext_iff.mp h
        subst h1; subst h2
        exact getProfile_x s
      · rw [getProfile_y] at h
        injection h with h
        obtain ⟨h1, h2⟩ := Prod.ext_iff.mp h
        subst h1; subst h2
        exact getProfile_y s
      · rw [getProfile_azavg] at h
        injection h with h
        obtain ⟨h1, h2⟩ := Prod.ext_iff.mp h
        subst h1; subst h2
        rw [getProfile_azavg, azSlice_repeat]
      · rw [getProfile_azmedian] at h
        injection h with h
        obtain ⟨h1, h2⟩ := Prod.ext_iff.mp h
        subst h1; subst h2
        rw [getProfile_azmedian, azSlice_repeat]
      · rw [getProfile_azmin] at h
        injection h with h
        obtain ⟨h1, h2⟩ := Prod.ext_iff.mp h
        subst h1; subst h2
        rw [getProfile_azmin, azSlice_repeat]
      · rw [getProfile_azmax] at h
        injection h with h
        obtain ⟨h1, h2⟩ := Prod.ext_iff.mp h
        subst h1; subst h2
        rw [getProfile_azmax, azSlice_repeat]
      · rw [getProfile_azpv] at h
        injection h with h
        obtain ⟨h1, h2⟩ := Prod.ext_iff.mp h
        subst h1; subst h2
        rw [getProfile_azpv, azSlice_repeat]
      · rw [getProfile_azvar] at h
        injection h with h
        obtain ⟨h1, h2⟩ := Prod.ext_iff.mp h
        subst h1; subst h2
        rw [getProfile_azvar, azSlice_repeat]
      · rw [getProfile_azstd] at h
        injection h with h
        obtain ⟨h1, h2⟩ := Prod.ext_iff.mp h
        subst h1; subst h2
        rw [getProfile_azstd, azSlice_repeat]
    · rw [getProfile_not_found s name hmem] at h
      cases h
  · intro h
    rcases s with ⟨f, t, c⟩
    cases c with
    | none => rfl
    | some g => cases h
  · rw [azSlice_state_azSlice, azSlice_eq]
  · rw [azSlice_state_azSlice, azSlice_eq]

/-- Witness for C2 at a concrete fresh extractor and the "x" profile. -/
theorem slices_cache_idempotent_witness :
    demoSlices.getProfile "x" = .ok (xslice demoSlices, demoSlices) ∧
    CacheConsistent demoSlices ∧
    demoSlices.rcache = none ∧
    (demoSlices.getProfile "x").map Prod.fst
      = ((freshSlices demoSlices.field demoSlices.twosided).getProfile
          "x").map Prod.fst ∧
    (demoSlices.azSlice lmean).2
      = ⟨demoSlices.field, demoSlices.twosided,
          some (radialGrid demoSlices.field)⟩ := by
  refine ⟨?_, Or.inl rfl, rfl, ?_, ?_⟩
  · exact (slices_cache_idempotent demoSlices "x" lmean lmax).1
      (xslice demoSlices) demoSlices (getProfile_x demoSlices)
  · exact (slices_cache_idempotent demoSlices "x" lmean lmax).2.1 (Or.inl rfl)
  · exact (slices_cache_idempotent demoSlices "x" lmean lmax).2.2.1 rfl

/-- C7: every profile returned by a named extraction is a pair of
equal-length coordinate and value sequences with the coordinate sequence
monotonic; azimuthal profiles are sorted by increasing bin-center radius
and bins containing zero samples are omitted (every emitted bin holds at
least one sample). -/
theorem profile_wellformed (s : Slices) (name : String)
    (hx : s.field.xaxis.Pairwise (· ≤ ·))
    (hy : s.field.yaxis.Pairwise (· ≤ ·))
    (p : List ℝ × List ℝ) (s' : Slices)
    (h : s.getProfile name = .ok (p, s')) :
    p.1.length = p.2.length ∧ p.1.Pairwise (· ≤ ·) ∧
    (∀ rg k, k ∈ azKept rg s.field → azBinVals rg s.field k ≠ []) := by
  have haz : ∀ st : List ℝ → ℝ, (p, s') = s.azSlice st →
      p.1.length = p.2.length ∧ p.1.Pairwise (· ≤ ·) ∧
      (∀ rg k, k ∈ azKept rg s.field → azBinVals rg s.field k ≠ []) := by
    intro st hst
    rw [azSlice_eq] at hst
    obtain ⟨h1, _⟩ := Prod.ext_iff.mp hst
    have hp : p = azProfileOf s.effGrid s.field st := h1
    rw [hp]
    exact ⟨azProfile_len _ _ _, azProfile_coords_sorted _ _ _,
      fun rg k => azKept_nonempty rg s.field k⟩
  have hcart : p = xslice s ∨ p = yslice s →
      p.1.length = p.2.length ∧ p.1.Pairwise (· ≤ ·) ∧
      (∀ rg k, k ∈ azKept rg s.field → azBinVals rg s.field k ≠ []) := by
    rintro (rfl | rfl)
    · exact ⟨xslice_len s, xslice_sorted s hx,
        fun rg k => azKept_nonempty rg s.field k⟩
    · exact ⟨yslice_len s, yslice_sorted s hy,
        fun rg k => azKept_nonempty rg s.field k⟩
  by_cases hmem : name ∈ profileNames
  · simp only [profileNames, List.mem_cons, List.not_mem_nil, or_false] at hmem
    rcases hmem with rfl | rfl | rfl | rfl | rfl | rfl | rfl | rfl | rfl
    · rw [getProfile_x] at h
      injection h with h
      exact hcart (Or.inl (Prod.ext_iff.mp h.symm).1)
    · rw [getProfile_y] at h
      injection h with h
      exact hcart (Or.inr (Prod.ext_iff.mp h.symm).1)
    · rw [getProfile_azavg] at h
      injection h with h
      exact haz lmean h.symm
    · rw [getProfile_azmedian] at h
      injection h with h
      exact haz lmedian h.symm
    · rw [getProfile_azmin] at h
      injection h with h
      exact haz lmin h.symm
    · rw [getProfile_azmax] at h
      injection h with h
      exact haz lmax h.symm
    · rw [getProfile_azpv] at h
      injection h with h
      exact haz lpv h.symm
    · rw [getProfile_azvar] at h
      injection h with h
      exact haz lvar h.symm
    · rw [getProfile_azstd] at h
      injection h with h
      exact haz lstd h.symm
  · rw [getProfile_not_found s name hmem] at h
    cases h

/-- Witness for C7: the demonstration extractor has monotone axes and its
"azavg" profile is well-formed. -/
theorem profile_wellformed_witness :
    demoSlices.field.xaxis.Pairwise (· ≤ ·) ∧
    demoSlices.field.yaxis.Pairwise (· ≤ ·) ∧
    demoSlices.getProfile "azavg" = .ok (demoSlices.azSlice lmean) ∧
    ((demoSlices.azSlice lmean).1.1.length
        = (demoSlices.azSlice lmean).1.2.length ∧
      (demoSlices.azSlice lmean).1.1.Pairwise (· ≤ ·) ∧
      (∀ rg k, k ∈ azKept rg demoSlices.field →
        azBinVals rg demoSlices.field k ≠ [])) := by
  have hx : demoSlices.field.xaxis.Pairwise (· ≤ ·) := by
    show ([0, 1] : List ℝ).Pairwise (· ≤ ·)
    norm_num [List.pairwise_cons]
  have hy : demoSlices.field.yaxis.Pairwise (· ≤ ·) := hx
  refine ⟨hx, hy, getProfile_azavg demoSlices, ?_⟩
  exact profile_wellformed demoSlices "azavg" hx hy
    (demoSlices.azSlice lmean).1 (demoSlices.azSlice lmean).2
    (getProfile_azavg demoSlices)

/-- C10: profile extraction is deterministic across extractor instances:
two extractors constructed over the same unchanged field with the same
two-sided setting return identical results for the same profile name, so
fresh extractors may be created per use without changing output. -/
theorem extractor_deterministic (f : SampledField2D) (t : Bool)
    (name : String) (s1 s2 : Slices) :
    (∀ sa sb, f.slices t = .ok sa → f.slices t = .ok sb →
      sa.getProfile name = sb.getProfile name) ∧
    (s1.field = s2.field → s1.twosided = s2.twosided →
      CacheConsistent s1 → CacheConsistent s2 →
      (s1.getProfile name).map Prod.fst
        = (s2.getProfile name).map Prod.fst) := by
  constructor
  · intro sa sb ha hb
    rw [ha] at hb
    injection hb with h
    rw [h]
  · intro hf ht h1 h2
    rw [getProfile_fst_cache s1 h1 name, getProfile_fst_cache s2 h2 name,
      hf, ht]

/-- Witness for C10: two separately constructed extractors over the
demonstration field agree on the "azavg" profile. -/
theorem extractor_deterministic_witness :
    demoField.slices true = .ok demoSlices ∧
    CacheConsistent demoSlices ∧
    demoSlices.getProfile "azavg" = demoSlices.getProfile "azavg" ∧
    (demoSlices.getProfile "azavg").map Prod.fst
      = (demoSlices.getProfile "azavg").map Prod.fst := by
  have hs : demoField.slices true = .ok demoSlices := by
    unfold SampledField2D.slices
    have hcond : 2 ≤ demoField.xaxis.length ∧ 2 ≤ demoField.yaxis.length := by
      constructor
      · show 2 ≤ ([0, 1] : List ℝ).length
        simp
      · show 2 ≤ ([0, 1] : List ℝ).length
        simp
    rw [if_pos hcond]
    rfl
  refine ⟨hs, Or.inl rfl, ?_, ?_⟩
  · exact (extractor_deterministic demoField true "azavg" demoSlices
      demoSlices).1 demoSlices demoSlices hs hs
  · exact (extractor_deterministic demoField true "azavg" demoSlices
      demoSlices).2 rfl rfl (Or.inl rfl) (Or.inl rfl)

end
